import Mathlib

/-!
Verification development for the CLTV & ROI dashboard (`src/app.py`).

The business-logic core is shallowly embedded here:
* `_ensure_cols` / `_compute_metrics` model the MetricsEngine
  (app.py lines 11-44);
* `simulate_reallocation` models the ReallocationSimulator
  (app.py lines 68-105).

Modelling conventions:
* pandas float64 columns are modelled as exact rationals `ℚ`
  (division by zero yields `0` in `ℚ` where pandas would yield
  `inf`/`NaN`; the claims under study avoid those inputs);
* a DataFrame is a list of column names (for the schema check) plus a
  list of records;
* `groupby("channel")` (pandas default `sort=True`) emits one group per
  distinct channel, in lexicographically sorted key order;
* `sort_values("avg_cltv", ascending=False)` is modelled as a stable
  descending insertion sort (numpy's introsort degenerates to a stable
  insertion sort on the small segments this app produces);
* Python exceptions are an explicit `Except` error channel;
* `round(x, 2)` is modelled as exact decimal round-half-to-even
  (Python's `round` is round-half-to-even on binary doubles);
* the float literal `1e-9` is modelled as the exact rational `1/10^9`.
-/

/-- One input record (one row of the CSV). -/
structure Row where
  customer_id : Int
  channel : String
  cost : ℚ
  conversion_rate : ℚ
  revenue : ℚ
deriving DecidableEq, Repr

/-- An input table: its column names plus its rows. -/
structure DataFrame where
  cols : List String
  rows : List Row
deriving DecidableEq, Repr

/-- app.py line 9: `REQUIRED_COLS`. -/
def REQUIRED_COLS : List String :=
  ["customer_id", "channel", "cost", "conversion_rate", "revenue"]

/-- The content of the `ValueError` raised by `_ensure_cols`
(app.py line 14): the missing-column list and the expected column list,
exactly the two lists interpolated into the message
`Missing columns: ... Expected: ...`. -/
structure SchemaError where
  missing : List String
  expected : List String
deriving DecidableEq, Repr

/-- app.py lines 11-14: collect every required column absent from the
table and fail with a single error naming them all. -/
def _ensure_cols (df : DataFrame) : Except SchemaError Unit :=
  let missing := REQUIRED_COLS.filter (fun c => !(df.cols.contains c))
  if missing = [] then .ok () else .error ⟨missing, REQUIRED_COLS⟩

/-- A row enriched with the two derived metric columns
(app.py lines 19-20). -/
structure ERow where
  customer_id : Int
  channel : String
  cost : ℚ
  conversion_rate : ℚ
  revenue : ℚ
  roi : ℚ
  cltv : ℚ
deriving DecidableEq, Repr

/-- app.py lines 19-20:
`df["roi"] = df["revenue"] / df["cost"]` and
`df["cltv"] = ((df["revenue"] - df["cost"]) * df["conversion_rate"]) / df["cost"]`. -/
def enrich (r : Row) : ERow :=
  ⟨r.customer_id, r.channel, r.cost, r.conversion_rate, r.revenue,
   r.revenue / r.cost, (r.revenue - r.cost) * r.conversion_rate / r.cost⟩

/-- pandas `Series.mean`: sum divided by length. -/
def mean (l : List ℚ) : ℚ := l.sum / l.length

/-- One row of the channel summary (app.py lines 22-37).
`revenue_share_pct` models the `revenue_share_%` column; before that
column is assigned (app.py line 35) the field holds the placeholder 0. -/
structure ChannelRow where
  channel : String
  customers : Nat
  avg_cost : ℚ
  avg_conv_rate : ℚ
  total_revenue : ℚ
  avg_roi : ℚ
  avg_cltv : ℚ
  revenue_share_pct : ℚ
deriving DecidableEq, Repr

/-- Insert a channel name into a lexicographically sorted duplicate-free
list, keeping it sorted and duplicate-free. -/
def insertChannel (c : String) : List String → List String
  | [] => [c]
  | d :: ds =>
    if c = d then d :: ds
    else if c < d then c :: d :: ds
    else d :: insertChannel c ds

/-- The distinct values of a list of channel names, in lexicographically
sorted order: the group keys emitted by `df.groupby("channel")`
(pandas default `sort=True`). -/
def sortedUnique : List String → List String
  | [] => []
  | c :: cs => insertChannel c (sortedUnique cs)

/-- app.py lines 24-31: the `.agg(...)` record for one channel group
(`revenue_share_pct` not yet assigned, placeholder 0). -/
def mkChannelRow (erows : List ERow) (c : String) : ChannelRow :=
  let g := erows.filter (fun r => r.channel = c)
  ⟨c, g.length, mean (g.map (·.cost)), mean (g.map (·.conversion_rate)),
   (g.map (·.revenue)).sum, mean (g.map (·.roi)), mean (g.map (·.cltv)), 0⟩

/-- Stable descending insertion of a channel row by `avg_cltv`: the row
being inserted comes earlier in the input, so it goes before any row of
equal key. -/
def insertDesc (x : ChannelRow) : List ChannelRow → List ChannelRow
  | [] => [x]
  | y :: ys => if y.avg_cltv ≤ x.avg_cltv then x :: y :: ys else y :: insertDesc x ys

/-- app.py line 32: `.sort_values("avg_cltv", ascending=False)`,
modelled as a stable descending sort. -/
def sortByCltvDesc : List ChannelRow → List ChannelRow
  | [] => []
  | x :: xs => insertDesc x (sortByCltvDesc xs)

/-- app.py lines 35-37: assign
`revenue_share_% = 100 * total_revenue / total_revenue.sum()`. -/
def addShares (l : List ChannelRow) : List ChannelRow :=
  let g := (l.map (·.total_revenue)).sum
  l.map (fun r => { r with revenue_share_pct := 100 * r.total_revenue / g })

/-- The `meta` dict of app.py lines 38-43. -/
structure Meta where
  rows : Nat
  channels : Nat
  current_weighted_roi : ℚ
  current_avg_cltv : ℚ
deriving DecidableEq, Repr

/-- app.py line 18-20 applied to the whole table: the enriched rows. -/
def enrichAll (df : DataFrame) : List ERow := df.rows.map enrich

/-- The distinct channels of the table, sorted (the groupby keys). -/
def channelKeys (df : DataFrame) : List String :=
  sortedUnique ((enrichAll df).map (·.channel))

/-- app.py lines 22-31: the aggregated frame, one row per group key. -/
def baseReport (df : DataFrame) : List ChannelRow :=
  (channelKeys df).map (mkChannelRow (enrichAll df))

/-- app.py lines 22-37: the full `by_channel` frame (grouped,
aggregated, sorted by `avg_cltv` descending, shares assigned). -/
def channelReport (df : DataFrame) : List ChannelRow :=
  addShares (sortByCltvDesc (baseReport df))

/-- app.py lines 38-43: the `meta` summary stats. -/
def metaOf (df : DataFrame) : Meta :=
  ⟨df.rows.length, (channelKeys df).length,
   mean ((enrichAll df).map (·.roi)), mean ((enrichAll df).map (·.cltv))⟩

/-- app.py lines 16-44: `_compute_metrics`. Validates, then returns the
enriched table, the channel report and the summary stats. -/
def _compute_metrics (df : DataFrame) :
    Except SchemaError (List ERow × List ChannelRow × Meta) :=
  match _ensure_cols df with
  | .error e => .error e
  | .ok _ => .ok (enrichAll df, channelReport df, metaOf df)

/-! ## ReallocationSimulator (app.py lines 68-105) -/

/-- A JSON value, the result of `json.loads`. -/
inductive Json where
  | jnull : Json
  | jbool : Bool → Json
  | jnum : ℚ → Json
  | jstr : String → Json
  | jarr : List Json → Json
  | jobj : List (String × Json) → Json

/-- The allocation text box content, abstracted by its parse outcome:
`emptyText` is `""`/`None` (which `allocations_json or "{}"` turns into
the empty object), `badText` is any string `json.loads` rejects, and
`jsonText j` is any string parsing to the JSON value `j`. -/
inductive AllocText where
  | emptyText : AllocText
  | badText : AllocText
  | jsonText : Json → AllocText

/-- The Python exceptions the simulator can raise past its `try` block
(which guards only `json.loads`). -/
inductive PyExc where
  | keyError : String → PyExc
  | attributeError : PyExc
  | typeError : PyExc
deriving DecidableEq, Repr

/-- The `delta` dict of app.py lines 91-98. -/
structure Delta where
  current_weighted_roi : ℚ
  new_weighted_roi : ℚ
  roi_change_pct : ℚ
  current_weighted_cltv : ℚ
  new_weighted_cltv : ℚ
  cltv_change_pct : ℚ
deriving DecidableEq, Repr

/-- Numeric view of a JSON value, as Python arithmetic sees it
(`bool` is an `int` subclass in Python, so it is numeric). -/
def toNum : Json → Option ℚ
  | .jnum q => some q
  | .jbool b => some (if b then 1 else 0)
  | _ => none

/-- Python `dict` insertion: replace the value in place if the key
exists, else append. -/
def insertDict : List (String × Json) → String → Json → List (String × Json)
  | [], k, v => [(k, v)]
  | (k', v') :: rest, k, v =>
    if k' = k then (k, v) :: rest else (k', v') :: insertDict rest k v

/-- The Python dict built by `json.loads` from an object's fields:
insertion order, duplicate keys last-wins. -/
def allocDict (fields : List (String × Json)) : List (String × Json) :=
  fields.foldl (fun d kv => insertDict d kv.1 kv.2) []

/-- app.py line 77: `sum(alloc.values())`; adding a non-numeric value
raises `TypeError`. -/
def sumValues : List (String × Json) → Except PyExc ℚ
  | [] => .ok 0
  | kv :: rest =>
    match toNum kv.2 with
    | none => .error .typeError
    | some q => (sumValues rest).map (fun t => q + t)

/-- app.py line 78: `weights = {k: v/s for k, v in alloc.items()}`
(the `getD 0` is unreachable once `sumValues` has succeeded). -/
def normWeights (d : List (String × Json)) (s : ℚ) : List (String × ℚ) :=
  d.map (fun kv => (kv.1, (toNum kv.2).getD 0 / s))

/-- app.py lines 81-82: `weights.setdefault(ch, 0.0)` for each channel
of the report, in report order; `setdefault` appends missing keys at
the end of the dict. -/
def setdefaults (w : List (String × ℚ)) (report : List ChannelRow) :
    List (String × ℚ) :=
  report.foldl
    (fun w r => if (w.map Prod.fst).contains r.channel then w
                else w ++ [(r.channel, 0)]) w

/-- The `kpis.loc[ch]` lookup: the report row indexed by channel `ch`
(`_compute_metrics` produces one row per distinct channel, so the first
match is the row). -/
def locRow (report : List ChannelRow) (ch : String) : Option ChannelRow :=
  report.find? (fun r => r.channel = ch)

/-- app.py lines 84-85: `sum(kpis.loc[ch, col] * w for ch, w in
weights.items())`; a key absent from the report raises `KeyError`
at the first such key. -/
def sumLoc (report : List ChannelRow) (f : ChannelRow → ℚ) :
    List (String × ℚ) → Except PyExc ℚ
  | [] => .ok 0
  | (ch, w) :: rest =>
    match locRow report ch with
    | none => .error (.keyError ch)
    | some r => (sumLoc report f rest).map (fun t => f r * w + t)

/-- app.py lines 87-89: the current revenue-share-weighted blend
`sum(kpis.loc[ch, col] * cur_w.get(ch, 0) for ch in kpis.index)`,
where `cur_w = revenue_share_% / 100`. -/
def curShareBlend (report : List ChannelRow) (f : ChannelRow → ℚ) : ℚ :=
  (report.map (fun r =>
    (locRow report r.channel).elim 0
      (fun q => f q * (q.revenue_share_pct / 100)))).sum

/-- The epsilon `1e-9` of app.py lines 94 and 97, as an exact rational. -/
def eps : ℚ := 1 / 1000000000

/-- Round a rational to the nearest integer, half to even
(the rounding of Python's `round`). -/
def roundHalfEven (x : ℚ) : ℤ :=
  let f : ℤ := ⌊x⌋
  if x - f < 1/2 then f
  else if 1/2 < x - f then f + 1
  else if f % 2 = 0 then f else f + 1

/-- Python `round(x, 2)`: round to 2 decimal places, half to even. -/
def round2 (q : ℚ) : ℚ := (roundHalfEven (q * 100) : ℚ) / 100

/-- The `delta` dict of app.py lines 91-98, given the two projected
blends `nR`/`nC` (app.py lines 84-85). -/
def mkDelta (report : List ChannelRow) (nR nC : ℚ) : Delta :=
  ⟨round2 (curShareBlend report (·.avg_roi)), round2 nR,
   round2 (100 * (nR - curShareBlend report (·.avg_roi)) /
     (curShareBlend report (·.avg_roi) + eps)),
   round2 (curShareBlend report (·.avg_cltv)), round2 nC,
   round2 (100 * (nC - curShareBlend report (·.avg_cltv)) /
     (curShareBlend report (·.avg_cltv) + eps))⟩

/-- The fully built `weights` dict of app.py lines 77-82: normalized
allocation (with the `or 1.0` zero-sum substitution) followed by the
`setdefault` loop. -/
def weightsOf (report : List ChannelRow) (fields : List (String × Json))
    (s0 : ℚ) : List (String × ℚ) :=
  setdefaults (normWeights (allocDict fields) (if s0 = 0 then 1 else s0)) report

/-- The human-readable two-line summary of app.py lines 99-104
(display formatting abstracted to a plain rendering of the six rounded
numbers). -/
def renderText (d : Delta) : String :=
  "**ROI**: " ++ toString d.current_weighted_roi ++ " -> " ++
    toString d.new_weighted_roi ++ " (" ++ toString d.roi_change_pct ++
    "%)\n\n**CLTV**: " ++ toString d.current_weighted_cltv ++ " -> " ++
    toString d.new_weighted_cltv ++ " (" ++ toString d.cltv_change_pct ++ "%)"

/-- app.py lines 77-105: the simulator body once the allocation has
parsed to the object `fields` and data is loaded. -/
def simulateObj (report : List ChannelRow) (fields : List (String × Json)) :
    Except PyExc (String × Option Delta) :=
  match sumValues (allocDict fields) with
  | .error e => .error e
  | .ok s0 =>
    match sumLoc report (·.avg_roi) (weightsOf report fields s0) with
    | .error e => .error e
    | .ok nR =>
      match sumLoc report (·.avg_cltv) (weightsOf report fields s0) with
      | .error e => .error e
      | .ok nC => .ok (renderText (mkDelta report nR nC), some (mkDelta report nR nC))

/-- app.py lines 73-105: after `json.loads` succeeded with value `j`:
the no-data check (line 73), then `alloc.values()` — which raises
`AttributeError` unless `j` is an object (line 77) — then the
projection. -/
def afterParse (by_df : Option (List ChannelRow)) (j : Json) :
    Except PyExc (String × Option Delta) :=
  match by_df with
  | none => .ok ("Load data first.", none)
  | some report =>
    if report.isEmpty then .ok ("Load data first.", none)
    else
      match j with
      | .jobj fields => simulateObj report fields
      | _ => .error .attributeError

/-- app.py lines 68-105: `simulate_reallocation`. The `try` block
guards only `json.loads`, so only a parse failure is recovered into
the `("❌ Invalid JSON.", None)` return. -/
def simulate_reallocation (by_df : Option (List ChannelRow)) (txt : AllocText) :
    Except PyExc (String × Option Delta) :=
  match txt with
  | .badText => .ok ("❌ Invalid JSON.", none)
  | .emptyText => afterParse by_df (Json.jobj [])
  | .jsonText j => afterParse by_df j

/-- The order in which the channel report actually comes out:
`avg_cltv` strictly descending, ties in lexicographically increasing
channel order (the groupby emits channels sorted and the value sort is
stable). -/
def cltvOrd (a b : ChannelRow) : Prop :=
  b.avg_cltv < a.avg_cltv ∨ (a.avg_cltv = b.avg_cltv ∧ a.channel < b.channel)

instance : DecidableRel cltvOrd := fun _ _ =>
  inferInstanceAs (Decidable (_ ∨ _))

/-- A concrete one-channel report used to exercise the simulator:
channel `"a"` with `avg_roi = 2`, `avg_cltv = 3`, full revenue share. -/
def repW : List ChannelRow := [⟨"a", 1, 1, 1, 10, 2, 3, 100⟩]

/-- A concrete valid one-row table: channel `"e"`, cost 10,
conversion rate 1/2, revenue 20 (so `roi = 2`, `cltv = 1/2`). -/
def dfW : DataFrame := ⟨REQUIRED_COLS, [⟨1, "e", 10, 1/2, 20⟩]⟩

/-- A concrete valid table whose two channels appear in the order
`"b"`, `"a"` and tie on `avg_cltv`. -/
def dfT : DataFrame := ⟨REQUIRED_COLS, [⟨1, "b", 1, 1, 2⟩, ⟨2, "a", 1, 1, 2⟩]⟩

/-! ## Theorems -/

/-- C6: an input table missing at least one required column makes
`_compute_metrics` fail with a single `SchemaError` whose payload lists
every missing required column together with the full required-column
list; the `Except.error` result carries no enriched table, channel
report or summary stats. -/
theorem missing_columns_schema_error (df : DataFrame)
    (h : ∃ c ∈ REQUIRED_COLS, c ∉ df.cols) :
    _compute_metrics df =
      .error ⟨REQUIRED_COLS.filter (fun c => !(df.cols.contains c)),
              REQUIRED_COLS⟩ ∧
    (∀ c ∈ REQUIRED_COLS, c ∉ df.cols →
      c ∈ REQUIRED_COLS.filter (fun c => !(df.cols.contains c))) ∧
    REQUIRED_COLS.filter (fun c => !(df.cols.contains c)) ≠ [] := by
  obtain ⟨c, hc, hnc⟩ := h
  have hmem : c ∈ REQUIRED_COLS.filter (fun c => !(df.cols.contains c)) := by
    simp [List.mem_filter, hc, hnc]
  have hne : REQUIRED_COLS.filter (fun c => !(df.cols.contains c)) ≠ [] := by
    intro hnil; rw [hnil] at hmem; exact List.not_mem_nil c hmem
  refine ⟨?_, ?_, hne⟩
  · simp only [_compute_metrics, _ensure_cols]
    rw [if_neg hne]
  · intro d hd hnd
    simp [List.mem_filter, hd, hnd]

/-- Witness for C6 at a concrete table missing `cost`,
`conversion_rate` and `revenue`. -/
theorem missing_columns_schema_error_witness :
    _compute_metrics ⟨["customer_id", "channel"], []⟩ =
      .error ⟨REQUIRED_COLS.filter
                (fun c => !((["customer_id", "channel"] : List String).contains c)),
              REQUIRED_COLS⟩ ∧
    (∀ c ∈ REQUIRED_COLS, c ∉ (["customer_id", "channel"] : List String) →
      c ∈ REQUIRED_COLS.filter
            (fun c => !((["customer_id", "channel"] : List String).contains c))) ∧
    REQUIRED_COLS.filter
      (fun c => !((["customer_id", "channel"] : List String).contains c)) ≠ [] :=
  missing_columns_schema_error ⟨["customer_id", "channel"], []⟩
    ⟨"cost", by decide, by decide⟩

/-- C10: a table that has all five required columns but zero rows makes
`_compute_metrics` succeed, with an empty enriched table, an empty
channel report, and summary stats showing 0 rows and 0 channels (the
two mean fields are the empty mean, the model's image of pandas `NaN`).
-/
theorem empty_table_compute_ok (df : DataFrame)
    (hcols : ∀ c ∈ REQUIRED_COLS, c ∈ df.cols) (hrows : df.rows = []) :
    _compute_metrics df = .ok ([], [], ⟨0, 0, mean [], mean []⟩) := by
  have hm : REQUIRED_COLS.filter (fun c => !(df.cols.contains c)) = [] := by
    rw [List.filter_eq_nil_iff]
    intro c hc
    simpa using hcols c hc
  have he : _ensure_cols df = .ok () := by
    simp only [_ensure_cols]
    rw [if_pos hm]
  simp [_compute_metrics, he, enrichAll, channelReport,
        baseReport, channelKeys, metaOf, hrows, sortedUnique,
        sortByCltvDesc, addShares]

/-- Witness for C10 at the concrete five-column zero-row table. -/
theorem empty_table_compute_ok_witness :
    _compute_metrics ⟨REQUIRED_COLS, []⟩ = .ok ([], [], ⟨0, 0, mean [], mean []⟩) :=
  empty_table_compute_ok ⟨REQUIRED_COLS, []⟩ (by decide) rfl

/-! ### Structure of `sortedUnique` (the groupby keys) -/

theorem mem_insertChannel {x c : String} {l : List String} :
    x ∈ insertChannel c l ↔ x = c ∨ x ∈ l := by
  induction l with
  | nil => simp [insertChannel]
  | cons d ds ih =>
    simp only [insertChannel]
    by_cases h1 : c = d
    · subst h1
      rw [if_pos rfl]
      simp only [List.mem_cons]
      tauto
    · rw [if_neg h1]
      by_cases h2 : c < d
      · rw [if_pos h2]
        simp only [List.mem_cons]
      · rw [if_neg h2]
        simp only [List.mem_cons, ih]
        tauto

theorem pairwise_insertChannel {c : String} {l : List String}
    (h : l.Pairwise (· < ·)) : (insertChannel c l).Pairwise (· < ·) := by
  induction l with
  | nil => simp [insertChannel]
  | cons d ds ih =>
    rw [List.pairwise_cons] at h
    obtain ⟨hd, hds⟩ := h
    simp only [insertChannel]
    by_cases h1 : c = d
    · rw [if_pos h1]
      exact List.pairwise_cons.mpr ⟨hd, hds⟩
    · rw [if_neg h1]
      by_cases h2 : c < d
      · rw [if_pos h2]
        refine List.pairwise_cons.mpr ⟨?_, List.pairwise_cons.mpr ⟨hd, hds⟩⟩
        intro y hy
        rcases List.mem_cons.mp hy with rfl | hy'
        · exact h2
        · exact lt_trans h2 (hd y hy')
      · rw [if_neg h2]
        have hdc : d < c := by
          rcases lt_trichotomy c d with h | h | h
          · exact absurd h h2
          · exact absurd h h1
          · exact h
        refine List.pairwise_cons.mpr ⟨?_, ih hds⟩
        intro y hy
        rcases mem_insertChannel.mp hy with rfl | hy'
        · exact hdc
        · exact hd y hy'

theorem pairwise_sortedUnique (l : List String) :
    (sortedUnique l).Pairwise (· < ·) := by
  induction l with
  | nil => simp [sortedUnique]
  | cons c cs ih => exact pairwise_insertChannel ih

theorem mem_sortedUnique {x : String} {l : List String} :
    x ∈ sortedUnique l ↔ x ∈ l := by
  induction l with
  | nil => simp [sortedUnique]
  | cons c cs ih => simp [sortedUnique, mem_insertChannel, ih]

theorem nodup_sortedUnique (l : List String) : (sortedUnique l).Nodup :=
  (pairwise_sortedUnique l).imp ne_of_lt

/-! ### Structure of `sortByCltvDesc` (the `sort_values` step) -/

theorem perm_insertDesc (x : ChannelRow) (l : List ChannelRow) :
    List.Perm (insertDesc x l) (x :: l) := by
  induction l with
  | nil => exact List.Perm.refl _
  | cons y ys ih =>
    simp only [insertDesc]
    by_cases h : y.avg_cltv ≤ x.avg_cltv
    · rw [if_pos h]
    · rw [if_neg h]
      exact (ih.cons y).trans (List.Perm.swap x y ys)

theorem perm_sortByCltvDesc (l : List ChannelRow) : List.Perm (sortByCltvDesc l) l := by
  induction l with
  | nil => exact List.Perm.refl _
  | cons x xs ih => exact (perm_insertDesc x (sortByCltvDesc xs)).trans (ih.cons x)

theorem pairwise_insertDesc {x : ChannelRow} {l : List ChannelRow}
    (hp : l.Pairwise cltvOrd) (hx : ∀ y ∈ l, x.channel < y.channel) :
    (insertDesc x l).Pairwise cltvOrd := by
  induction l with
  | nil => simp [insertDesc]
  | cons y ys ih =>
    rw [List.pairwise_cons] at hp
    obtain ⟨hy, hys⟩ := hp
    simp only [insertDesc]
    by_cases h : y.avg_cltv ≤ x.avg_cltv
    · rw [if_pos h]
      refine List.pairwise_cons.mpr ⟨?_, List.pairwise_cons.mpr ⟨hy, hys⟩⟩
      intro z hz
      have hzle : z.avg_cltv ≤ x.avg_cltv := by
        rcases List.mem_cons.mp hz with rfl | hz'
        · exact h
        · rcases hy z hz' with h1 | ⟨h1, -⟩
          · exact le_trans (le_of_lt h1) h
          · exact le_trans (le_of_eq h1.symm) h
      rcases lt_or_eq_of_le hzle with h2 | h2
      · exact Or.inl h2
      · exact Or.inr ⟨h2.symm, hx z hz⟩
    · rw [if_neg h]
      have hxy : x.avg_cltv < y.avg_cltv := not_le.mp h
      refine List.pairwise_cons.mpr ⟨?_, ih hys ?_⟩
      · intro z hz
        rcases List.mem_cons.mp ((perm_insertDesc x ys).mem_iff.mp hz) with rfl | hz'
        · exact Or.inl hxy
        · exact hy z hz'
      · intro z hz
        exact hx z (List.mem_cons_of_mem y hz)

theorem pairwise_sortByCltvDesc {l : List ChannelRow}
    (h : l.Pairwise (fun a b => a.channel < b.channel)) :
    (sortByCltvDesc l).Pairwise cltvOrd := by
  induction l with
  | nil => simp [sortByCltvDesc]
  | cons x xs ih =>
    rw [List.pairwise_cons] at h
    obtain ⟨hx, hxs⟩ := h
    exact pairwise_insertDesc (ih hxs)
      (fun y hy => hx y ((perm_sortByCltvDesc xs).mem_iff.mp hy))

/-! ### Inverting `_compute_metrics` -/

theorem compute_ok_inv {df : DataFrame} {enr : List ERow}
    {rep : List ChannelRow} {m : Meta}
    (h : _compute_metrics df = .ok (enr, rep, m)) :
    enr = enrichAll df ∧ rep = channelReport df ∧ m = metaOf df := by
  unfold _compute_metrics at h
  cases he : _ensure_cols df with
  | error e =>
    rw [he] at h
    exact absurd h (by simp)
  | ok u =>
    rw [he] at h
    simp only [Except.ok.injEq, Prod.mk.injEq] at h
    exact ⟨h.1.symm, h.2.1.symm, h.2.2.symm⟩

theorem exists_base_of_mem_channelReport {df : DataFrame} {e : ChannelRow}
    (he : e ∈ channelReport df) :
    ∃ c ∈ channelKeys df, e.channel = c ∧
      e.avg_roi = (mkChannelRow (enrichAll df) c).avg_roi ∧
      e.avg_cltv = (mkChannelRow (enrichAll df) c).avg_cltv ∧
      e.total_revenue = (mkChannelRow (enrichAll df) c).total_revenue := by
  unfold channelReport addShares at he
  simp only [List.mem_map] at he
  obtain ⟨b, hb, rfl⟩ := he
  have hb' : b ∈ baseReport df := (perm_sortByCltvDesc _).mem_iff.mp hb
  unfold baseReport at hb'
  obtain ⟨c, hc, rfl⟩ := List.mem_map.mp hb'
  exact ⟨c, hc, rfl, rfl, rfl, rfl⟩

/-- C1: for every validated input table, each channel-summary row's
`avg_roi` is the arithmetic mean of the per-row `revenue/cost` values
of that channel's input rows, and `avg_cltv` is the arithmetic mean of
the per-row `(revenue - cost) * conversion_rate / cost` values: the
mean-of-ratios over the enriched per-row columns of app.py lines 19-20,
not a ratio re-derived from aggregated totals. -/
theorem avg_roi_cltv_mean_of_rows (df : DataFrame) (enr : List ERow)
    (rep : List ChannelRow) (m : Meta)
    (h : _compute_metrics df = .ok (enr, rep, m)) (e : ChannelRow) (he : e ∈ rep) :
    e.avg_roi = mean ((df.rows.filter (fun r => r.channel = e.channel)).map
        (fun r => r.revenue / r.cost)) ∧
    e.avg_cltv = mean ((df.rows.filter (fun r => r.channel = e.channel)).map
        (fun r => (r.revenue - r.cost) * r.conversion_rate / r.cost)) := by
  obtain ⟨-, hrep, -⟩ := compute_ok_inv h
  subst hrep
  obtain ⟨c, -, hch, hroi, hcltv, -⟩ := exists_base_of_mem_channelReport he
  rw [hch, hroi, hcltv]
  simp only [mkChannelRow, enrichAll]
  rw [List.filter_map, List.map_map, List.map_map]
  exact ⟨rfl, rfl⟩

/-- C3 (amended): the channel report rows come out ordered by
`avg_cltv` descending, with ties broken by lexicographically increasing
channel name — the order `groupby` (sorted keys) followed by a stable
descending value sort produces — not by first-encounter order in the
input. -/
theorem report_sorted_desc_lex_tiebreak (df : DataFrame) (enr : List ERow)
    (rep : List ChannelRow) (m : Meta)
    (h : _compute_metrics df = .ok (enr, rep, m)) :
    rep.Pairwise cltvOrd := by
  obtain ⟨-, hrep, -⟩ := compute_ok_inv h
  subst hrep
  unfold channelReport
  have hbase : (baseReport df).Pairwise (fun a b => a.channel < b.channel) := by
    unfold baseReport
    exact List.Pairwise.map _ (fun a b hab => hab) (pairwise_sortedUnique _)
  have hsorted := pairwise_sortByCltvDesc hbase
  unfold addShares
  exact List.Pairwise.map _ (fun a b hab => hab) hsorted

/-! ### Revenue-share algebra (C5) -/

theorem sum_map_filter_split {α : Type} (f : α → ℚ) (p : α → Bool) (l : List α) :
    ((l.filter p).map f).sum + ((l.filter (fun a => !(p a))).map f).sum
      = (l.map f).sum := by
  induction l with
  | nil => simp
  | cons a t ih =>
    simp only [List.filter_cons]
    by_cases h : p a
    · rw [if_pos h, if_neg (by simp [h])]
      simp only [List.map_cons, List.sum_cons]
      rw [add_assoc, ih]
    · rw [if_neg h, if_pos (by simp [h])]
      simp only [List.map_cons, List.sum_cons]
      rw [add_left_comm, ih]

theorem sum_over_groups (f : ERow → ℚ) (cs : List String) :
    ∀ rows : List ERow, cs.Nodup → (∀ r ∈ rows, r.channel ∈ cs) →
      (cs.map (fun c => ((rows.filter (fun r => r.channel = c)).map f).sum)).sum
        = (rows.map f).sum := by
  induction cs with
  | nil =>
    intro rows _ hcov
    have hnil : rows = [] := by
      cases rows with
      | nil => rfl
      | cons r t => exact absurd (hcov r (List.mem_cons_self r t)) (List.not_mem_nil _)
    subst hnil
    simp
  | cons c cs' ih =>
    intro rows hnd hcov
    rw [List.nodup_cons] at hnd
    obtain ⟨hc, hnd'⟩ := hnd
    simp only [List.map_cons, List.sum_cons]
    have hcov' : ∀ r ∈ rows.filter (fun r => !(decide (r.channel = c))),
        r.channel ∈ cs' := by
      intro r hr
      rw [List.mem_filter] at hr
      obtain ⟨hr1, hr2⟩ := hr
      rcases List.mem_cons.mp (hcov r hr1) with heq | h'
      · exact absurd heq (by simpa using hr2)
      · exact h'
    have hfil : ∀ c' ∈ cs',
        (rows.filter (fun r => !(decide (r.channel = c)))).filter
            (fun r => r.channel = c')
          = rows.filter (fun r => r.channel = c') := by
      intro c' hc'
      have hne : c' ≠ c := fun h => hc (h ▸ hc')
      rw [List.filter_filter]
      apply List.filter_congr
      intro r _
      by_cases h : r.channel = c'
      · simp [h, hne]
      · simp [h]
    have hmaps : cs'.map (fun c' => ((rows.filter (fun r => r.channel = c')).map f).sum)
        = cs'.map (fun c' =>
            (((rows.filter (fun r => !(decide (r.channel = c)))).filter
                (fun r => r.channel = c')).map f).sum) := by
      apply List.map_eq_map_iff.mpr
      intro c' hc'
      rw [hfil c' hc']
    rw [hmaps, ih _ hnd' hcov',
        show (fun r : ERow => !(decide (r.channel = c)))
          = (fun r : ERow => !(decide (r.channel = c))) from rfl]
    exact sum_map_filter_split f (fun r => decide (r.channel = c)) rows

theorem sum_map_shares (l : List ChannelRow) (g : ℚ) :
    (l.map (fun r => 100 * r.total_revenue / g)).sum
      = 100 * (l.map (·.total_revenue)).sum / g := by
  induction l with
  | nil => simp
  | cons a t ih =>
    simp only [List.map_cons, List.sum_cons, ih]
    ring

theorem grand_total_eq (df : DataFrame) :
    ((sortByCltvDesc (baseReport df)).map (·.total_revenue)).sum
      = (df.rows.map (·.revenue)).sum := by
  rw [List.Perm.sum_eq (List.Perm.map (·.total_revenue) (perm_sortByCltvDesc _))]
  have hbase : (baseReport df).map (·.total_revenue)
      = (channelKeys df).map (fun c =>
          (((enrichAll df).filter (fun r => r.channel = c)).map (·.revenue)).sum) := by
    unfold baseReport
    rw [List.map_map]
    rfl
  rw [hbase]
  have hcov : ∀ r ∈ enrichAll df, r.channel ∈ channelKeys df := by
    intro r hr
    unfold channelKeys
    rw [mem_sortedUnique]
    exact List.mem_map.mpr ⟨r, hr, rfl⟩
  rw [sum_over_groups (·.revenue) (channelKeys df) (enrichAll df)
        (nodup_sortedUnique _) hcov]
  unfold enrichAll
  rw [List.map_map]
  rfl

/-- C5: whenever the total revenue over all input rows is nonzero, the
`revenue_share_%` column of the channel report sums to exactly 100
(hence certainly to 100 within the 1e-6 tolerance), and each channel's
share is `100 * total_revenue / (sum of total_revenue over all
channels)`. -/
theorem revenue_share_sum_100 (df : DataFrame) (enr : List ERow)
    (rep : List ChannelRow) (m : Meta)
    (h : _compute_metrics df = .ok (enr, rep, m))
    (hnz : (df.rows.map (·.revenue)).sum ≠ 0) :
    (rep.map (·.revenue_share_pct)).sum = 100 ∧
    |(rep.map (·.revenue_share_pct)).sum - 100| ≤ 1 / 1000000 ∧
    ∀ e ∈ rep, e.revenue_share_pct
      = 100 * e.total_revenue / (rep.map (·.total_revenue)).sum := by
  obtain ⟨-, hrep, -⟩ := compute_ok_inv h
  subst hrep
  have hG := grand_total_eq df
  set L := sortByCltvDesc (baseReport df) with hL
  set G := (L.map (·.total_revenue)).sum with hGdef
  have hGnz : G ≠ 0 := by rw [hG]; exact hnz
  have hrepshares : (channelReport df).map (·.revenue_share_pct)
      = L.map (fun r => 100 * r.total_revenue / G) := by
    unfold channelReport addShares
    rw [List.map_map]
    rfl
  have hreptr : (channelReport df).map (·.total_revenue)
      = L.map (·.total_revenue) := by
    unfold channelReport addShares
    rw [List.map_map]
    rfl
  have hsum : ((channelReport df).map (·.revenue_share_pct)).sum = 100 := by
    rw [hrepshares, sum_map_shares, ← hGdef, mul_div_assoc, div_self hGnz, mul_one]
  refine ⟨hsum, by rw [hsum]; norm_num, ?_⟩
  intro e he
  unfold channelReport addShares at he
  simp only [List.mem_map] at he
  obtain ⟨b, hb, rfl⟩ := he
  rw [hreptr, ← hGdef]

/-! ### Simulator dict and lookup lemmas -/

theorem mem_insertDict {d : List (String × Json)} {k : String} {v : Json}
    {x : String × Json} (hx : x ∈ insertDict d k v) : x ∈ d ∨ x = (k, v) := by
  induction d with
  | nil =>
    simp only [insertDict, List.mem_singleton] at hx
    exact Or.inr hx
  | cons kv rest ih =>
    simp only [insertDict] at hx
    by_cases h : kv.1 = k
    · rw [if_pos h] at hx
      rcases List.mem_cons.mp hx with rfl | hx'
      · exact Or.inr rfl
      · exact Or.inl (List.mem_cons_of_mem _ hx')
    · rw [if_neg h] at hx
      rcases List.mem_cons.mp hx with rfl | hx'
      · exact Or.inl (List.mem_cons_self _ _)
      · rcases ih hx' with h' | h'
        · exact Or.inl (List.mem_cons_of_mem _ h')
        · exact Or.inr h'

theorem mem_foldl_insertDict :
    ∀ (fields d : List (String × Json)) (x : String × Json),
      x ∈ fields.foldl (fun d kv => insertDict d kv.1 kv.2) d → x ∈ d ∨ x ∈ fields := by
  intro fields
  induction fields with
  | nil =>
    intro d x hx
    exact Or.inl hx
  | cons kv rest ih =>
    intro d x hx
    simp only [List.foldl_cons] at hx
    rcases ih _ x hx with h | h
    · rcases mem_insertDict h with h' | h'
      · exact Or.inl h'
      · right
        rw [h']
        simp
    · exact Or.inr (List.mem_cons_of_mem _ h)

theorem mem_allocDict {fields : List (String × Json)} {x : String × Json}
    (hx : x ∈ allocDict fields) : x ∈ fields := by
  rcases mem_foldl_insertDict fields [] x hx with h | h
  · exact absurd h (List.not_mem_nil x)
  · exact h

theorem mem_keys_insertDict {d : List (String × Json)} {k : String} {v : Json}
    {x : String} :
    x ∈ (insertDict d k v).map Prod.fst ↔ x = k ∨ x ∈ d.map Prod.fst := by
  induction d with
  | nil => simp [insertDict]
  | cons kv rest ih =>
    simp only [insertDict]
    by_cases h : kv.1 = k
    · rw [if_pos h]
      simp only [List.map_cons, List.mem_cons, ← h]
      tauto
    · rw [if_neg h]
      simp only [List.map_cons, List.mem_cons, ih]
      tauto

theorem mem_keys_foldl_insertDict :
    ∀ (fields d : List (String × Json)) (x : String),
      x ∈ (fields.foldl (fun d kv => insertDict d kv.1 kv.2) d).map Prod.fst ↔
        x ∈ d.map Prod.fst ∨ x ∈ fields.map Prod.fst := by
  intro fields
  induction fields with
  | nil =>
    intro d x
    simp
  | cons kv rest ih =>
    intro d x
    simp only [List.foldl_cons, List.map_cons, List.mem_cons]
    rw [ih]
    rw [mem_keys_insertDict]
    tauto

theorem mem_keys_allocDict {fields : List (String × Json)} {x : String} :
    x ∈ (allocDict fields).map Prod.fst ↔ x ∈ fields.map Prod.fst := by
  unfold allocDict
  rw [mem_keys_foldl_insertDict]
  simp

theorem sumValues_ok_of_num {l : List (String × Json)}
    (h : ∀ kv ∈ l, (toNum kv.2).isSome) : ∃ q, sumValues l = .ok q := by
  induction l with
  | nil => exact ⟨0, rfl⟩
  | cons kv rest ih =>
    obtain ⟨q, hq⟩ := Option.isSome_iff_exists.mp (h kv (List.mem_cons_self _ _))
    obtain ⟨t, ht⟩ := ih (fun kv' hkv' => h kv' (List.mem_cons_of_mem _ hkv'))
    refine ⟨q + t, ?_⟩
    simp [sumValues, hq, ht, Except.map]

theorem sumValues_zero {l : List (String × Json)}
    (h : ∀ kv ∈ l, toNum kv.2 = some 0) : sumValues l = .ok 0 := by
  induction l with
  | nil => rfl
  | cons kv rest ih =>
    have hkv := h kv (List.mem_cons_self _ _)
    have hrest := ih (fun kv' hkv' => h kv' (List.mem_cons_of_mem _ hkv'))
    simp [sumValues, hkv, hrest, Except.map]

theorem mem_setdefaults :
    ∀ (report : List ChannelRow) (w : List (String × ℚ)) (x : String × ℚ),
      x ∈ setdefaults w report →
        x ∈ w ∨ (x.2 = 0 ∧ x.1 ∈ report.map (·.channel)) := by
  intro report
  induction report with
  | nil =>
    intro w x hx
    exact Or.inl hx
  | cons r rest ih =>
    intro w x hx
    simp only [setdefaults, List.foldl_cons] at hx
    have hx' := ih _ x hx
    by_cases h : ((w.map Prod.fst).contains r.channel : Bool)
    · rw [if_pos h] at hx'
      rcases hx' with h' | h'
      · exact Or.inl h'
      · exact Or.inr ⟨h'.1, List.mem_cons_of_mem _ h'.2⟩
    · rw [if_neg h] at hx'
      rcases hx' with h' | h'
      · rcases List.mem_append.mp h' with h'' | h''
        · exact Or.inl h''
        · rw [List.mem_singleton] at h''
          rw [h'']
          exact Or.inr ⟨rfl, by simp⟩
      · exact Or.inr ⟨h'.1, List.mem_cons_of_mem _ h'.2⟩

theorem subset_setdefaults :
    ∀ (report : List ChannelRow) (w : List (String × ℚ)) (x : String × ℚ),
      x ∈ w → x ∈ setdefaults w report := by
  intro report
  induction report with
  | nil =>
    intro w x hx
    exact hx
  | cons r rest ih =>
    intro w x hx
    simp only [setdefaults, List.foldl_cons]
    apply ih
    by_cases h : ((w.map Prod.fst).contains r.channel : Bool)
    · rw [if_pos h]
      exact hx
    · rw [if_neg h]
      exact List.mem_append_left _ hx

theorem sumLoc_zero {report : List ChannelRow} {f : ChannelRow → ℚ} :
    ∀ {items : List (String × ℚ)},
      (∀ kv ∈ items, kv.2 = 0 ∧ kv.1 ∈ report.map (·.channel)) →
      sumLoc report f items = .ok 0 := by
  intro items
  induction items with
  | nil => intro _; rfl
  | cons kv rest ih =>
    intro h
    obtain ⟨ch, w⟩ := kv
    obtain ⟨hw, hch⟩ := h (ch, w) (List.mem_cons_self _ _)
    have hrest := ih (fun kv' hkv' => h kv' (List.mem_cons_of_mem _ hkv'))
    obtain ⟨r, hrmem, hrch⟩ := List.mem_map.mp hch
    have hfind : ∃ q, locRow report ch = some q := by
      cases hl : locRow report ch with
      | none =>
        exfalso
        exact absurd (by simpa using hrch)
          (by simpa using List.find?_eq_none.mp hl r hrmem)
      | some q => exact ⟨q, rfl⟩
    obtain ⟨q, hq⟩ := hfind
    simp only [sumLoc, hq, hrest, Except.map]
    simp only at hw
    rw [hw]
    norm_num

theorem sumLoc_error_of_missing {report : List ChannelRow} {f : ChannelRow → ℚ} :
    ∀ {items : List (String × ℚ)},
      (∃ kv ∈ items, kv.1 ∉ report.map (·.channel)) →
      ∃ ch, sumLoc report f items = .error (.keyError ch) ∧
        ch ∉ report.map (·.channel) := by
  intro items
  induction items with
  | nil =>
    intro h
    obtain ⟨kv, hkv, -⟩ := h
    exact absurd hkv (List.not_mem_nil kv)
  | cons kv rest ih =>
    intro h
    obtain ⟨ch, w⟩ := kv
    cases hl : locRow report ch with
    | none =>
      refine ⟨ch, by simp [sumLoc, hl], ?_⟩
      intro hmem
      obtain ⟨r, hrmem, hrch⟩ := List.mem_map.mp hmem
      exact absurd (by simpa using hrch)
        (by simpa using List.find?_eq_none.mp hl r hrmem)
    | some q =>
      have hqch : ch ∈ report.map (·.channel) := by
        have hqmem := List.mem_of_find?_eq_some hl
        have hqpred := List.find?_some hl
        refine List.mem_map.mpr ⟨q, hqmem, ?_⟩
        simpa using hqpred
      obtain ⟨kv', hkv', hkvch⟩ := h
      rcases List.mem_cons.mp hkv' with rfl | hkv''
      · exact absurd hqch hkvch
      · obtain ⟨ch', herr, hnotin⟩ := ih ⟨kv', hkv'', hkvch⟩
        exact ⟨ch', by simp [sumLoc, hl, herr, Except.map], hnotin⟩

/-! ### Inverting the simulator -/

theorem simulateObj_ok_inv {report : List ChannelRow}
    {fields : List (String × Json)} {t : String} {od : Option Delta}
    (h : simulateObj report fields = .ok (t, od)) :
    ∃ s0 nR nC, sumValues (allocDict fields) = .ok s0 ∧
      sumLoc report (·.avg_roi) (weightsOf report fields s0) = .ok nR ∧
      sumLoc report (·.avg_cltv) (weightsOf report fields s0) = .ok nC ∧
      od = some (mkDelta report nR nC) ∧ t = renderText (mkDelta report nR nC) := by
  unfold simulateObj at h
  split at h
  · exact absurd h (by simp)
  · rename_i s0 hs
    split at h
    · exact absurd h (by simp)
    · rename_i nR hr
      split at h
      · exact absurd h (by simp)
      · rename_i nC hc
        simp only [Except.ok.injEq, Prod.mk.injEq] at h
        exact ⟨s0, nR, nC, hs, hr, hc, h.2.symm, h.1.symm⟩

theorem afterParse_ok_some_inv {bd : Option (List ChannelRow)} {j : Json}
    {t : String} {d : Delta} (h : afterParse bd j = .ok (t, some d)) :
    ∃ report fields s0 nR nC, bd = some report ∧ report.isEmpty = false ∧
      j = .jobj fields ∧
      sumValues (allocDict fields) = .ok s0 ∧
      sumLoc report (·.avg_roi) (weightsOf report fields s0) = .ok nR ∧
      sumLoc report (·.avg_cltv) (weightsOf report fields s0) = .ok nC ∧
      d = mkDelta report nR nC ∧ t = renderText (mkDelta report nR nC) := by
  cases bd with
  | none => simp [afterParse] at h
  | some report =>
    simp only [afterParse] at h
    split at h
    · exact absurd h (by simp)
    · rename_i hne
      split at h
      · rename_i _j fields
        obtain ⟨s0, nR, nC, h1, h2, h3, h4, h5⟩ := simulateObj_ok_inv h
        rw [Option.some.injEq] at h4
        exact ⟨report, fields, s0, nR, nC, rfl, by simpa using hne, rfl,
               h1, h2, h3, h4, h5⟩
      · exact absurd h (by simp)

theorem simulate_ok_some_inv {bd : Option (List ChannelRow)} {txt : AllocText}
    {t : String} {d : Delta}
    (h : simulate_reallocation bd txt = .ok (t, some d)) :
    ∃ report fields s0 nR nC, bd = some report ∧ report.isEmpty = false ∧
      sumValues (allocDict fields) = .ok s0 ∧
      sumLoc report (·.avg_roi) (weightsOf report fields s0) = .ok nR ∧
      sumLoc report (·.avg_cltv) (weightsOf report fields s0) = .ok nC ∧
      d = mkDelta report nR nC ∧ t = renderText (mkDelta report nR nC) := by
  cases txt with
  | badText => simp [simulate_reallocation] at h
  | emptyText =>
    simp only [simulate_reallocation] at h
    obtain ⟨report, fields, s0, nR, nC, h1, h2, -, h4, h5, h6, h7, h8⟩ :=
      afterParse_ok_some_inv h
    exact ⟨report, fields, s0, nR, nC, h1, h2, h4, h5, h6, h7, h8⟩
  | jsonText j =>
    simp only [simulate_reallocation] at h
    obtain ⟨report, fields, s0, nR, nC, h1, h2, -, h4, h5, h6, h7, h8⟩ :=
      afterParse_ok_some_inv h
    exact ⟨report, fields, s0, nR, nC, h1, h2, h4, h5, h6, h7, h8⟩

/-- C9: every simulation that returns a structured result computes its
six numeric fields by rounding to 2 decimal places, with both
percentage changes computed as `100 * (new - current) / (current +
1e-9)` on the unrounded blends — the epsilon `1e-9` is added to the
denominator before rounding. -/
theorem simulate_delta_formula (bd : Option (List ChannelRow)) (txt : AllocText)
    (t : String) (d : Delta)
    (h : simulate_reallocation bd txt = .ok (t, some d)) :
    ∃ report fields s0 nR nC, bd = some report ∧
      sumValues (allocDict fields) = .ok s0 ∧
      sumLoc report (·.avg_roi) (weightsOf report fields s0) = .ok nR ∧
      sumLoc report (·.avg_cltv) (weightsOf report fields s0) = .ok nC ∧
      d.current_weighted_roi = round2 (curShareBlend report (·.avg_roi)) ∧
      d.new_weighted_roi = round2 nR ∧
      d.roi_change_pct = round2 (100 * (nR - curShareBlend report (·.avg_roi)) /
        (curShareBlend report (·.avg_roi) + 1 / 1000000000)) ∧
      d.current_weighted_cltv = round2 (curShareBlend report (·.avg_cltv)) ∧
      d.new_weighted_cltv = round2 nC ∧
      d.cltv_change_pct = round2 (100 * (nC - curShareBlend report (·.avg_cltv)) /
        (curShareBlend report (·.avg_cltv) + 1 / 1000000000)) := by
  obtain ⟨report, fields, s0, nR, nC, h1, -, h3, h4, h5, h6, -⟩ :=
    simulate_ok_some_inv h
  subst h6
  exact ⟨report, fields, s0, nR, nC, h1, h3, h4, h5,
         rfl, rfl, rfl, rfl, rfl, rfl⟩

/-! ### The current revenue-share-weighted baseline (C2) -/

theorem locRow_self_of_nodup {report : List ChannelRow}
    (hnd : (report.map (·.channel)).Nodup) {r : ChannelRow} (hr : r ∈ report) :
    locRow report r.channel = some r := by
  induction report with
  | nil => exact absurd hr (List.not_mem_nil r)
  | cons a rest ih =>
    rw [List.map_cons, List.nodup_cons] at hnd
    obtain ⟨ha, ht⟩ := hnd
    rcases List.mem_cons.mp hr with rfl | hr'
    · exact List.find?_cons_of_pos _ (by simp)
    · have hne : a.channel ≠ r.channel := by
        intro heq
        exact ha (heq ▸ List.mem_map.mpr ⟨r, hr', rfl⟩)
      unfold locRow
      rw [List.find?_cons_of_neg _ (by simp [hne])]
      exact ih ht hr'

theorem curShareBlend_eq_of_nodup {report : List ChannelRow}
    (hnd : (report.map (·.channel)).Nodup) (f : ChannelRow → ℚ) :
    curShareBlend report f
      = (report.map (fun r => f r * (r.revenue_share_pct / 100))).sum := by
  unfold curShareBlend
  congr 1
  apply List.map_eq_map_iff.mpr
  intro r hr
  rw [locRow_self_of_nodup hnd hr]
  rfl

/-- C2: for a channel report with pairwise-distinct channels (which is
what `_compute_metrics` produces), a successful simulation's
`current_weighted_roi` / `current_weighted_cltv` are the (rounded)
revenue-share-weighted blends `Σ avg_roi * revenue_share_% / 100` and
`Σ avg_cltv * revenue_share_% / 100` over the report rows — the
historical revenue-share baseline of app.py lines 87-89, not the
unweighted row-means of the SummaryStats. -/
theorem simulate_current_weighted_blend (report : List ChannelRow)
    (fields : List (String × Json)) (t : String) (d : Delta)
    (hnd : (report.map (·.channel)).Nodup)
    (h : simulate_reallocation (some report) (.jsonText (.jobj fields))
          = .ok (t, some d)) :
    d.current_weighted_roi
      = round2 ((report.map (fun r => r.avg_roi * (r.revenue_share_pct / 100))).sum) ∧
    d.current_weighted_cltv
      = round2 ((report.map (fun r => r.avg_cltv * (r.revenue_share_pct / 100))).sum) := by
  obtain ⟨report', fields', s0, nR, nC, h1, -, -, -, -, h6, -⟩ :=
    simulate_ok_some_inv h
  rw [Option.some.injEq] at h1
  subst h1
  subst h6
  constructor
  · show round2 (curShareBlend report (·.avg_roi)) = _
    rw [curShareBlend_eq_of_nodup hnd]
  · show round2 (curShareBlend report (·.avg_cltv)) = _
    rw [curShareBlend_eq_of_nodup hnd]

/-! ### Zero and unknown-channel allocations (C7, C4) -/

theorem round2_zero : round2 0 = 0 := by
  norm_num [round2, roundHalfEven]

/-- C7 (amended): an empty allocation object, and more generally any
all-zero allocation whose keys all name channels present in the report,
makes the simulator substitute `1.0` for the zero weight total and
project `new_weighted_roi = 0` and `new_weighted_cltv = 0`; the empty
text box is the same code path as the empty object.  (An all-zero
allocation naming a channel absent from the report instead raises
`KeyError`, see the counterexample.) -/
theorem zero_allocation_zero_projection (report : List ChannelRow)
    (fields : List (String × Json)) (hne : report ≠ [])
    (hz : ∀ kv ∈ fields, toNum kv.2 = some 0)
    (hk : ∀ kv ∈ fields, kv.1 ∈ report.map (·.channel)) :
    ∃ t d, simulate_reallocation (some report) (.jsonText (.jobj fields))
        = .ok (t, some d) ∧
      d.new_weighted_roi = 0 ∧ d.new_weighted_cltv = 0 ∧
      simulate_reallocation (some report) .emptyText
        = simulate_reallocation (some report) (.jsonText (.jobj [])) := by
  have hs0 : sumValues (allocDict fields) = .ok 0 :=
    sumValues_zero (fun kv hkv => hz kv (mem_allocDict hkv))
  have hwof : weightsOf report fields 0
      = setdefaults (normWeights (allocDict fields) 1) report := by
    unfold weightsOf
    rw [if_pos rfl]
  have hw : ∀ kv ∈ setdefaults (normWeights (allocDict fields) 1) report,
      kv.2 = 0 ∧ kv.1 ∈ report.map (·.channel) := by
    intro kv hkv
    rcases mem_setdefaults report _ kv hkv with hmem | hz0
    · unfold normWeights at hmem
      obtain ⟨kv', hkv', rfl⟩ := List.mem_map.mp hmem
      refine ⟨?_, hk kv' (mem_allocDict hkv')⟩
      show (toNum kv'.2).getD 0 / 1 = 0
      rw [hz kv' (mem_allocDict hkv')]
      norm_num
    · exact hz0
  have hnR : sumLoc report (·.avg_roi) (weightsOf report fields 0) = .ok 0 := by
    rw [hwof]
    exact sumLoc_zero hw
  have hnC : sumLoc report (·.avg_cltv) (weightsOf report fields 0) = .ok 0 := by
    rw [hwof]
    exact sumLoc_zero hw
  have hie : report.isEmpty = false := by
    cases report with
    | nil => exact absurd rfl hne
    | cons a t => rfl
  refine ⟨renderText (mkDelta report 0 0), mkDelta report 0 0, ?_, ?_, ?_, rfl⟩
  · simp [simulate_reallocation, afterParse, hie, simulateObj, hs0, hnR, hnC]
  · exact round2_zero
  · exact round2_zero

/-- C4 (amended): a well-formed numeric allocation naming at least one
channel that does not occur in the channel report is NOT silently
ignored: the projection loop looks every allocation key up against the
report (`kpis.loc[ch]`, app.py line 84), so the simulation raises an
uncaught `KeyError` for a channel absent from the report. -/
theorem unknown_channel_keyerror (report : List ChannelRow)
    (fields : List (String × Json)) (hne : report ≠ [])
    (hnum : ∀ kv ∈ fields, (toNum kv.2).isSome)
    (hmiss : ∃ kv ∈ fields, kv.1 ∉ report.map (·.channel)) :
    ∃ ch, simulate_reallocation (some report) (.jsonText (.jobj fields))
        = .error (.keyError ch) ∧ ch ∉ report.map (·.channel) := by
  obtain ⟨s0, hs0⟩ := sumValues_ok_of_num (fun kv hkv => hnum kv (mem_allocDict hkv))
  obtain ⟨kv, hkv, hkvnot⟩ := hmiss
  have hkey : kv.1 ∈ (allocDict fields).map Prod.fst :=
    mem_keys_allocDict.mpr (List.mem_map.mpr ⟨kv, hkv, rfl⟩)
  obtain ⟨kv', hkv', hfst⟩ := List.mem_map.mp hkey
  have hx : ∃ w, (kv.1, w) ∈ weightsOf report fields s0 := by
    refine ⟨(toNum kv'.2).getD 0 / (if s0 = 0 then 1 else s0), ?_⟩
    unfold weightsOf
    apply subset_setdefaults
    unfold normWeights
    refine List.mem_map.mpr ⟨kv', hkv', ?_⟩
    rw [hfst]
  obtain ⟨w, hw⟩ := hx
  obtain ⟨ch, herr, hnotin⟩ :=
    sumLoc_error_of_missing (f := (·.avg_roi)) ⟨(kv.1, w), hw, hkvnot⟩
  refine ⟨ch, ?_, hnotin⟩
  have hie : report.isEmpty = false := by
    cases report with
    | nil => exact absurd rfl hne
    | cons a t => rfl
  simp [simulate_reallocation, afterParse, hie, simulateObj, hs0, herr]

/-- C8 (amended, positive part): any allocation text that `json.loads`
rejects is recovered: the simulator returns the inline error message
with a `None` structured result, for every session state — including
before any data is loaded — and, being a pure function of its inputs,
leaves the previously computed channel report untouched. -/
theorem invalid_json_recovered (bd : Option (List ChannelRow)) :
    simulate_reallocation bd .badText = .ok ("❌ Invalid JSON.", none) := rfl

/-! ### Counterexamples -/

/-- C8 counterexample: allocation texts that are valid JSON but not a
key-to-number mapping are NOT recovered into an error message with a
null result: the JSON number `42` raises `AttributeError` (a number has
no `.values()`), and the object `{"a": "x"}` with a non-numeric value
raises `TypeError` (summing a string), both escaping the `try` block
that guards only `json.loads`. -/
theorem nonmapping_json_raises_counterexample :
    simulate_reallocation (some [⟨"a", 1, 1, 1, 10, 2, 3, 100⟩])
        (.jsonText (.jnum 42)) = .error .attributeError ∧
    simulate_reallocation (some [⟨"a", 1, 1, 1, 10, 2, 3, 100⟩])
        (.jsonText (.jobj [("a", Json.jstr "x")])) = .error .typeError :=
  ⟨rfl, rfl⟩

/-- C4 counterexample: an allocation naming the channel `"zz"`, absent
from the (nonempty) channel report, is not silently ignored — the
simulation raises `KeyError "zz"` instead of returning a projection. -/
theorem unknown_channel_counterexample :
    simulate_reallocation (some [⟨"a", 1, 1, 1, 10, 2, 3, 100⟩])
        (.jsonText (.jobj [("zz", Json.jnum 1)])) = .error (.keyError "zz") := by
  have hs : (1 + 0 : ℚ) ≠ 0 := by norm_num
  simp [simulate_reallocation, afterParse, simulateObj, allocDict, insertDict,
        sumValues, toNum, Except.map, weightsOf, normWeights, setdefaults,
        sumLoc, locRow, List.find?, hs]

/-- C7 counterexample: an all-zero allocation whose key `"zz"` does not
occur in the channel report does not yield the 0.00/0.00 projection the
claim promises for every all-zero allocation: it raises `KeyError "zz"`.
-/
theorem all_zero_unknown_key_counterexample :
    simulate_reallocation (some [⟨"a", 1, 1, 1, 10, 2, 3, 100⟩])
        (.jsonText (.jobj [("zz", Json.jnum 0)])) = .error (.keyError "zz") := by
  have hs : (0 + 0 : ℚ) = 0 := by norm_num
  simp [simulate_reallocation, afterParse, simulateObj, allocDict, insertDict,
        sumValues, toNum, Except.map, weightsOf, normWeights, setdefaults,
        sumLoc, locRow, List.find?, hs]

/-- C3 counterexample: with input rows whose channels appear in the
order `"b"` then `"a"` and whose `avg_cltv` values tie at 1, the
channel report comes out `["a", "b"]` (lexicographic), not the
first-encountered order `["b", "a"]` the claim requires; the compute
succeeds on this table. -/
theorem sort_tiebreak_counterexample :
    (([⟨1, "b", 1, 1, 2⟩, ⟨2, "a", 1, 1, 2⟩] : List Row).map (·.channel)
        = ["b", "a"]) ∧
    (channelReport ⟨REQUIRED_COLS, [⟨1, "b", 1, 1, 2⟩, ⟨2, "a", 1, 1, 2⟩]⟩).map
        (·.channel) = ["a", "b"] ∧
    (channelReport ⟨REQUIRED_COLS, [⟨1, "b", 1, 1, 2⟩, ⟨2, "a", 1, 1, 2⟩]⟩).map
        (·.avg_cltv) = [1, 1] ∧
    _compute_metrics ⟨REQUIRED_COLS, [⟨1, "b", 1, 1, 2⟩, ⟨2, "a", 1, 1, 2⟩]⟩
      = .ok (enrichAll ⟨REQUIRED_COLS, [⟨1, "b", 1, 1, 2⟩, ⟨2, "a", 1, 1, 2⟩]⟩,
             channelReport ⟨REQUIRED_COLS, [⟨1, "b", 1, 1, 2⟩, ⟨2, "a", 1, 1, 2⟩]⟩,
             metaOf ⟨REQUIRED_COLS, [⟨1, "b", 1, 1, 2⟩, ⟨2, "a", 1, 1, 2⟩]⟩) := by
  have hba : ¬ (("b" : String) < "a") := by
    simp
    decide
  have hab : ¬ (("a" : String) = "b") := by decide
  have hba' : ¬ (("b" : String) = "a") := by decide
  refine ⟨rfl, ?_, ?_, rfl⟩
  · norm_num [channelReport, addShares, sortByCltvDesc, insertDesc, baseReport,
        channelKeys, sortedUnique, insertChannel, enrichAll, enrich,
        mkChannelRow, mean, hba, hab, hba', List.filter_cons, List.filter_nil,
        List.map_cons, List.map_nil, List.sum_cons, List.sum_nil,
        List.length_cons, List.length_nil, Function.comp]
  · norm_num [channelReport, addShares, sortByCltvDesc, insertDesc, baseReport,
        channelKeys, sortedUnique, insertChannel, enrichAll, enrich,
        mkChannelRow, mean, hba, hab, hba', List.filter_cons, List.filter_nil,
        List.map_cons, List.map_nil, List.sum_cons, List.sum_nil,
        List.length_cons, List.length_nil, Function.comp]

/-! ### Witnesses -/

/-- Witness for C1 at `dfW`: the single channel row's `avg_roi` and
`avg_cltv` are the means of the per-row derived values. -/
theorem avg_roi_cltv_mean_of_rows_witness :
    (⟨"e", 1, 10, 1/2, 20, 2, 1/2, 100⟩ : ChannelRow).avg_roi
      = mean ((dfW.rows.filter
          (fun r => r.channel
            = (⟨"e", 1, 10, 1/2, 20, 2, 1/2, 100⟩ : ChannelRow).channel)).map
          (fun r => r.revenue / r.cost)) ∧
    (⟨"e", 1, 10, 1/2, 20, 2, 1/2, 100⟩ : ChannelRow).avg_cltv
      = mean ((dfW.rows.filter
          (fun r => r.channel
            = (⟨"e", 1, 10, 1/2, 20, 2, 1/2, 100⟩ : ChannelRow).channel)).map
          (fun r => (r.revenue - r.cost) * r.conversion_rate / r.cost)) := by
  have hrep : channelReport dfW = [⟨"e", 1, 10, 1/2, 20, 2, 1/2, 100⟩] := by
    norm_num [dfW, channelReport, addShares, sortByCltvDesc, insertDesc,
        baseReport, channelKeys, sortedUnique, insertChannel, enrichAll,
        enrich, mkChannelRow, mean, List.filter_cons, List.filter_nil,
        List.map_cons, List.map_nil, List.sum_cons, List.sum_nil,
        List.length_cons, List.length_nil, Function.comp]
  exact avg_roi_cltv_mean_of_rows dfW _ _ _ rfl
    ⟨"e", 1, 10, 1/2, 20, 2, 1/2, 100⟩
    (by rw [hrep]; exact List.mem_singleton.mpr rfl)

/-- Witness for C2 at `repW` with allocation `{"a": 1}`: the current
baselines of the structured result are the rounded revenue-share
blends. -/
theorem simulate_current_weighted_blend_witness :
    (mkDelta repW 2 3).current_weighted_roi
      = round2 ((repW.map (fun r => r.avg_roi * (r.revenue_share_pct / 100))).sum) ∧
    (mkDelta repW 2 3).current_weighted_cltv
      = round2 ((repW.map (fun r => r.avg_cltv * (r.revenue_share_pct / 100))).sum) := by
  have h : simulate_reallocation (some repW) (.jsonText (.jobj [("a", Json.jnum 1)]))
      = .ok (renderText (mkDelta repW 2 3), some (mkDelta repW 2 3)) := by
    norm_num [repW, simulate_reallocation, afterParse, simulateObj, allocDict,
        insertDict, sumValues, toNum, Except.map, weightsOf, normWeights,
        setdefaults, sumLoc, locRow, List.find?]
  exact simulate_current_weighted_blend repW [("a", Json.jnum 1)] _ _
    (by simp [repW]) h

/-- Witness for C3 (amended) at `dfT`: the report produced from the
two-channel tie table satisfies the descending/lexicographic order. -/
theorem report_sorted_desc_lex_tiebreak_witness :
    (channelReport dfT).Pairwise cltvOrd :=
  report_sorted_desc_lex_tiebreak dfT _ _ _ rfl

/-- Witness for C4 (amended) at `repW` with allocation `{"zz": 1}`. -/
theorem unknown_channel_keyerror_witness :
    ∃ ch, simulate_reallocation (some repW)
        (.jsonText (.jobj [("zz", Json.jnum 1)])) = .error (.keyError ch) ∧
      ch ∉ repW.map (·.channel) :=
  unknown_channel_keyerror repW [("zz", Json.jnum 1)] (by simp [repW])
    (by simp [toNum]) ⟨("zz", Json.jnum 1), by simp, by simp [repW]⟩

/-- Witness for C5 at `dfW`: shares sum to 100 and the single row's
share is `100 * total_revenue / Σ total_revenue`. -/
theorem revenue_share_sum_100_witness :
    ((channelReport dfW).map (·.revenue_share_pct)).sum = 100 ∧
    |((channelReport dfW).map (·.revenue_share_pct)).sum - 100| ≤ 1 / 1000000 ∧
    (⟨"e", 1, 10, 1/2, 20, 2, 1/2, 100⟩ : ChannelRow).revenue_share_pct
      = 100 * (⟨"e", 1, 10, 1/2, 20, 2, 1/2, 100⟩ : ChannelRow).total_revenue
        / ((channelReport dfW).map (·.total_revenue)).sum := by
  have hrep : channelReport dfW = [⟨"e", 1, 10, 1/2, 20, 2, 1/2, 100⟩] := by
    norm_num [dfW, channelReport, addShares, sortByCltvDesc, insertDesc,
        baseReport, channelKeys, sortedUnique, insertChannel, enrichAll,
        enrich, mkChannelRow, mean, List.filter_cons, List.filter_nil,
        List.map_cons, List.map_nil, List.sum_cons, List.sum_nil,
        List.length_cons, List.length_nil, Function.comp]
  have hnz : (dfW.rows.map (·.revenue)).sum ≠ 0 := by
    norm_num [dfW, List.map_cons, List.map_nil, List.sum_cons, List.sum_nil]
  obtain ⟨h1, h2, h3⟩ := revenue_share_sum_100 dfW _ _ _ rfl hnz
  exact ⟨h1, h2, h3 _ (by rw [hrep]; exact List.mem_singleton.mpr rfl)⟩

/-- Witness for C7 (amended) at `repW` with the all-zero allocation
`{"a": 0}` whose key occurs in the report. -/
theorem zero_allocation_zero_projection_witness :
    ∃ t d, simulate_reallocation (some repW)
        (.jsonText (.jobj [("a", Json.jnum 0)])) = .ok (t, some d) ∧
      d.new_weighted_roi = 0 ∧ d.new_weighted_cltv = 0 ∧
      simulate_reallocation (some repW) .emptyText
        = simulate_reallocation (some repW) (.jsonText (.jobj [])) :=
  zero_allocation_zero_projection repW [("a", Json.jnum 0)] (by simp [repW])
    (by simp [toNum]) (by simp [repW])

/-- Witness for C9 at `repW` with allocation `{"a": 1}`: the structured
result is built from the epsilon formula with everything rounded. -/
theorem simulate_delta_formula_witness :
    ∃ report fields s0 nR nC,
      (some repW : Option (List ChannelRow)) = some report ∧
      sumValues (allocDict fields) = .ok s0 ∧
      sumLoc report (·.avg_roi) (weightsOf report fields s0) = .ok nR ∧
      sumLoc report (·.avg_cltv) (weightsOf report fields s0) = .ok nC ∧
      (mkDelta repW 2 3).current_weighted_roi
        = round2 (curShareBlend report (·.avg_roi)) ∧
      (mkDelta repW 2 3).new_weighted_roi = round2 nR ∧
      (mkDelta repW 2 3).roi_change_pct
        = round2 (100 * (nR - curShareBlend report (·.avg_roi)) /
            (curShareBlend report (·.avg_roi) + 1 / 1000000000)) ∧
      (mkDelta repW 2 3).current_weighted_cltv
        = round2 (curShareBlend report (·.avg_cltv)) ∧
      (mkDelta repW 2 3).new_weighted_cltv = round2 nC ∧
      (mkDelta repW 2 3).cltv_change_pct
        = round2 (100 * (nC - curShareBlend report (·.avg_cltv)) /
            (curShareBlend report (·.avg_cltv) + 1 / 1000000000)) := by
  have h : simulate_reallocation (some repW) (.jsonText (.jobj [("a", Json.jnum 1)]))
      = .ok (renderText (mkDelta repW 2 3), some (mkDelta repW 2 3)) := by
    norm_num [repW, simulate_reallocation, afterParse, simulateObj, allocDict,
        insertDict, sumValues, toNum, Except.map, weightsOf, normWeights,
        setdefaults, sumLoc, locRow, List.find?]
  exact simulate_delta_formula (some repW) (.jsonText (.jobj [("a", Json.jnum 1)]))
    (renderText (mkDelta repW 2 3)) (mkDelta repW 2 3) h
